import Mathlib

/-!
Shallow embedding of the WordPress content-generator core:
the project data model (`src/data/models.py`), the encrypted store
(`src/utils/encryption.py`, `src/data/storage.py`), the repository
(`src/core/project_manager.py`), the processing pipeline
(`src/core/content_processor.py`, `src/gui/progress_window.py`) and
the publisher response handling (`src/api/wordpress_api.py`).
Machine-level details (real AES, the JSON byte syntax, wall-clock time)
are abstracted: the cipher is an abstract pair of maps with a round-trip
law, the document on disk is the parsed structure itself, and clocks are
explicit string parameters.
-/

/-- `WordPressProject` from `src/data/models.py`.  `created_at`/`updated_at`
are `Option String`: `none` models Python `None` before `__post_init__`. -/
structure Project where
  id : String
  name : String
  website_url : String
  username : String
  app_password : String
  category_id : Int
  status : String
  keywords : List String
  prompt_template : String
  ai_api_key : String
  ai_provider_type : String
  created_at : Option String
  updated_at : Option String
deriving DecidableEq, Repr

/-- `WordPressProject.__post_init__`: fills `created_at` when it is `None`
and unconditionally stamps `updated_at` with the construction-time clock
value `now` (`models.py` lines 25-28). -/
def WordPressProject.postInit (now : String) (p : Project) : Project :=
  { p with
    created_at := some (p.created_at.getD now)
    updated_at := some now }

/-- `WordPressProject.from_dict` (`models.py` lines 52-54): `cls(**data)`,
which runs `__post_init__` at clock value `now`. -/
def WordPressProject.from_dict (now : String) (d : Project) : Project :=
  WordPressProject.postInit now d

/-- `ProcessingResult` from `src/data/models.py`. -/
structure ProcessingResult where
  keyword : String
  success : Bool
  title : String
  post_id : Option Int
  post_url : String
  error_message : String
  processing_time : Nat
deriving DecidableEq, Repr

/- ### Slug derivation (`content_processor.py` lines 129-148,
     `wordpress_api.py` lines 117-135) -/

/-- Python `str.lower` restricted to ASCII letters, which is all the
slug pipeline distinguishes: characters outside `[a-z0-9-]` are deleted
by the following filter either way. -/
def lowerChar (c : Char) : Char :=
  if 65 ≤ c.toNat ∧ c.toNat ≤ 90 then Char.ofNat (c.toNat + 32) else c

/-- The character class `[a-z0-9-]` of the regex in both slug functions. -/
def isSlugChar (c : Char) : Bool :=
  (97 ≤ c.toNat && c.toNat ≤ 122) || (48 ≤ c.toNat && c.toNat ≤ 57)
    || (c.toNat == 45)

/-- Python `str.replace` for single characters. -/
def replaceChar (a b : Char) (l : List Char) : List Char :=
  l.map fun c => if c = a then b else c

/-- `re.sub(r'-+', '-', slug)`: collapse each run of hyphens to one. -/
def collapseHyphens : List Char → List Char
  | [] => []
  | [c] => [c]
  | a :: b :: rest =>
    if a = '-' ∧ b = '-' then collapseHyphens (b :: rest)
    else a :: collapseHyphens (b :: rest)

/-- `str.strip('-')`: drop hyphens from both ends. -/
def stripHyphens (l : List Char) : List Char :=
  ((l.dropWhile (fun c => c = '-')).reverse.dropWhile (fun c => c = '-')).reverse

/-- `ContentProcessor._create_slug` (`content_processor.py` 129-148):
lowercase, spaces to hyphens, delete characters outside `[a-z0-9-]`
(note: underscores are deleted here, not mapped), collapse hyphen runs,
strip edge hyphens.  No truncation in this function. -/
def ContentProcessor.create_slug (keyword : String) : String :=
  let s := keyword.data.map lowerChar
  let s := replaceChar ' ' '-' s
  let s := s.filter isSlugChar
  let s := collapseHyphens s
  let s := stripHyphens s
  String.mk s

/-- `WordPressAPI._sanitize_slug` (`wordpress_api.py` 117-135):
lowercase, spaces and underscores to hyphens, delete characters outside
`[a-z0-9-]`, collapse hyphen runs, strip edge hyphens, truncate to 50. -/
def WordPressAPI.sanitize_slug (slug : String) : String :=
  let s := slug.data.map lowerChar
  let s := replaceChar ' ' '-' s
  let s := replaceChar '_' '-' s
  let s := s.filter isSlugChar
  let s := collapseHyphens s
  let s := stripHyphens s
  String.mk (s.take 50)

/-- Modelled from the spec's words for claim C3: lowercase, map spaces
AND underscores to hyphens, delete every character outside `[a-z0-9-]`,
collapse hyphen runs, trim edge hyphens, truncate to 50 characters. -/
def specSlug (k : String) : String :=
  let s := k.data.map lowerChar
  let s := replaceChar ' ' '-' s
  let s := replaceChar '_' '-' s
  let s := s.filter isSlugChar
  let s := collapseHyphens s
  let s := stripHyphens s
  String.mk (s.take 50)

/-- The amended slug description: as `specSlug` except underscores are
deleted by the character filter rather than mapped to hyphens (the first
pipeline stage removes them before the sanitizer could map them). -/
def amendedSlugSpec (k : String) : String :=
  let s := k.data.map lowerChar
  let s := replaceChar ' ' '-' s
  let s := s.filter isSlugChar
  let s := collapseHyphens s
  let s := stripHyphens s
  String.mk (s.take 50)

/-- The slug value the pipeline actually hands to the publisher:
`create_post` receives `_create_slug keyword` and applies
`_sanitize_slug` to it when building the request body. -/
def slugSentToPublisher (keyword : String) : String :=
  WordPressAPI.sanitize_slug (ContentProcessor.create_slug keyword)

/- ### Encryption (`src/utils/encryption.py`) -/

/-- Abstract model of the Fernet cipher used by `EncryptionManager`:
an encoding map with a total inverse on its image (`dec_enc`), failing
(`none`) on blobs it rejects — a tampered or truncated token.  Fernet
tokens are never the empty string (`enc_ne`). -/
structure Cipher where
  enc : String → String
  dec : String → Option String
  dec_enc : ∀ s, dec (enc s) = some s
  enc_ne : ∀ s, s ≠ "" → enc s ≠ ""

/-- `EncryptionManager.encrypt` (`encryption.py` 65-76): empty input is
returned unchanged, otherwise the cipher encodes it. -/
def EncryptionManager.encrypt (c : Cipher) (data : String) : String :=
  if data = "" then "" else c.enc data

/-- `EncryptionManager.decrypt` (`encryption.py` 78-90): empty input is
returned unchanged; otherwise the cipher decodes, raising (`none`) on a
malformed blob. -/
def EncryptionManager.decrypt (c : Cipher) (encrypted : String) : Option String :=
  if encrypted = "" then some "" else c.dec encrypted

/- ### Durable store (`src/data/storage.py`) -/

/-- The versioned document `{'version': '1.0', 'projects': [...]}`
written by `DataStorage.save_projects`; the per-record dictionaries are
projects whose two sensitive fields hold ciphertext. -/
structure StoreDoc where
  version : String
  projects : List Project
deriving DecidableEq, Repr

/-- Contents of one file: a half-written file (`truncated`, which
`json.load` rejects) or a fully written document. -/
inductive FileData where
  | truncated
  | complete (doc : StoreDoc)
deriving DecidableEq, Repr

/-- The two paths `save_projects` touches: the target `projects.json`
and the temporary `projects.json.tmp`.  `none` means the path is absent. -/
structure FS where
  target : Option FileData
  tmp : Option FileData
deriving DecidableEq, Repr

/-- The four file-system effects of `DataStorage.save_projects`
(`storage.py` 71-89): create/write the temporary file, finish writing
the document to it, remove the pre-existing target, rename the
temporary file onto the target. -/
inductive SaveStep where
  | openTmp
  | writeDoc
  | removeOld
  | renameTmp
deriving DecidableEq, Repr

/-- Effect of one save step on the file system. -/
def DataStorage.saveStep (doc : StoreDoc) (fs : FS) : SaveStep → FS
  | .openTmp => { fs with tmp := some .truncated }
  | .writeDoc => { fs with tmp := some (.complete doc) }
  | .removeOld => { fs with target := none }
  | .renameTmp => { target := fs.tmp, tmp := none }

/-- The steps of one save, in program order. -/
def saveStepOrder : List SaveStep :=
  [.openTmp, .writeDoc, .removeOld, .renameTmp]

/-- Every file-system state a save passes through, the initial and final
states included. -/
def DataStorage.saveStates (doc : StoreDoc) (fs : FS) : List FS :=
  saveStepOrder.scanl (DataStorage.saveStep doc) fs

/-- Encrypt the sensitive fields of one record for serialization
(`storage.py` 61-67). -/
def DataStorage.storeRecord (c : Cipher) (p : Project) : Project :=
  { p with
    app_password := EncryptionManager.encrypt c p.app_password
    ai_api_key := EncryptionManager.encrypt c p.ai_api_key }

/-- The document `save_projects` serializes for a record list. -/
def storedDoc (c : Cipher) (ps : List Project) : StoreDoc :=
  ⟨"1.0", ps.map (DataStorage.storeRecord c)⟩

/-- `DataStorage.save_projects` (`storage.py` 48-99) run to completion:
the composition of the four save steps. -/
def DataStorage.save_projects (c : Cipher) (ps : List Project) (fs : FS) : FS :=
  saveStepOrder.foldl (DataStorage.saveStep (storedDoc c ps)) fs

/-- One iteration of the `load_projects` per-record loop
(`storage.py` 116-129): decrypt the two sensitive fields, then build the
record via `WordPressProject.from_dict` at load-time clock `now`;
any failure yields `none` and the record is skipped. -/
def DataStorage.loadRecord (c : Cipher) (now : String) (d : Project) : Option Project :=
  match EncryptionManager.decrypt c d.app_password with
  | none => none
  | some pw =>
    match EncryptionManager.decrypt c d.ai_api_key with
    | none => none
    | some key =>
      some (WordPressProject.from_dict now
        { d with app_password := pw, ai_api_key := key })

/-- The `for project_dict in projects_data` loop of `load_projects`:
append each successfully rebuilt record, `continue` past failures. -/
def DataStorage.loadLoop (c : Cipher) (now : String) : List Project → List Project
  | [] => []
  | d :: ds =>
    match DataStorage.loadRecord c now d with
    | some p => p :: DataStorage.loadLoop c now ds
    | none => DataStorage.loadLoop c now ds

/-- `DataStorage.load_projects` (`storage.py` 101-136): an absent file
yields `[]`; an unparsable file raises inside the outer `try`, which
returns `[]`; a complete document is loaded record by record. -/
def DataStorage.load_projects (c : Cipher) (now : String) (fs : FS) : List Project :=
  match fs.target with
  | none => []
  | some FileData.truncated => []
  | some (FileData.complete doc) => DataStorage.loadLoop c now doc.projects

/- ### Repository (`src/core/project_manager.py`) -/

/-- The exceptions `ProjectManager` raises: `ValueError("Project with
this name already exists")` and `ValueError("Project not found")`. -/
inductive PMErr where
  | duplicateName
  | notFound
deriving DecidableEq, Repr

/-- `ProjectManager` state: the in-memory list `self.projects` and the
file system its `DataStorage` writes to. -/
structure PMState where
  projects : List Project
  disk : FS
deriving DecidableEq, Repr

/-- `ProjectManager.save_projects` (`project_manager.py` 44-55): calls
`storage.save_projects` and reports success as a boolean; `ok` models
whether the underlying write succeeds (permission probe and I/O) — on
failure the exception is caught, the disk is unchanged and `False` is
returned. -/
def ProjectManager.save_projects (c : Cipher) (ok : Bool) (s : PMState) :
    PMState × Bool :=
  if ok then
    ({ s with disk := DataStorage.save_projects c s.projects s.disk }, true)
  else (s, false)

/-- `ProjectManager.add_project` (`project_manager.py` 15-42): reject a
duplicate name, else append and persist, returning the save result. -/
def ProjectManager.add_project (c : Cipher) (ok : Bool) (p : Project)
    (s : PMState) : PMState × Except PMErr Bool :=
  if s.projects.any (fun q => q.name = p.name) then
    (s, .error .duplicateName)
  else
    let s1 := { s with projects := s.projects ++ [p] }
    let (s2, succ) := ProjectManager.save_projects c ok s1
    (s2, .ok succ)

/-- `ProjectManager.update_project` (`project_manager.py` 76-91):
replace the first record with the given id (forcing the id onto the new
record), persist — the save result is ignored — and return `True`. -/
def ProjectManager.update_project (c : Cipher) (ok : Bool)
    (project_id : String) (updated : Project) (s : PMState) :
    PMState × Except PMErr Bool :=
  match s.projects.findIdx? (fun q => q.id = project_id) with
  | none => (s, .error .notFound)
  | some i =>
    let s1 := { s with projects := s.projects.set i { updated with id := project_id } }
    let (s2, _) := ProjectManager.save_projects c ok s1
    (s2, .ok true)

/-- `ProjectManager.delete_project` (`project_manager.py` 93-107):
remove the first record with the given id, persist — the save result is
ignored — and return `True`. -/
def ProjectManager.delete_project (c : Cipher) (ok : Bool)
    (project_id : String) (s : PMState) : PMState × Except PMErr Bool :=
  match s.projects.findIdx? (fun q => q.id = project_id) with
  | none => (s, .error .notFound)
  | some i =>
    let s1 := { s with projects := s.projects.eraseIdx i }
    let (s2, _) := ProjectManager.save_projects c ok s1
    (s2, .ok true)

/-- The consistency relation of claim C1: the durable document is
exactly the serialization of the in-memory collection. -/
def PMState.consistentDisk (c : Cipher) (s : PMState) : Prop :=
  s.disk.target = some (FileData.complete (storedDoc c s.projects))

/-- Pairwise-distinct record names (claim C4). -/
def PMState.namesDistinct (s : PMState) : Prop :=
  (s.projects.map (·.name)).Nodup

/- ### Publisher (`src/api/wordpress_api.py`) -/

/-- A successful `POST /wp-json/wp/v2/posts` reply body, as read by
`create_post`. -/
structure PostInfo where
  id : Int
  link : String
  slug : String
deriving DecidableEq, Repr

/-- One HTTP response from the WordPress server: status code, raw body
text, and the parsed JSON body when it parses as a post object. -/
structure HttpResponse where
  status_code : Nat
  text : String
  jsonBody : Option PostInfo
deriving DecidableEq, Repr

/-- The `requests` exceptions `create_post` distinguishes
(`wordpress_api.py` 67-80). -/
inductive NetExc where
  | timeout
  | connectionError
  | other (msg : String)
deriving DecidableEq, Repr

/-- The dictionary `create_post` returns: `{'success': True, 'post_id',
'post_url', 'slug'}` or `{'success': False, 'error'}`. -/
inductive WPCallResult where
  | ok (post_id : Int) (post_url : String) (slug : String)
  | err (error : String)
deriving DecidableEq, Repr

/-- The request body `create_post` builds (`wordpress_api.py` 33-42);
the slug field is sanitized here. -/
structure PostData where
  title : String
  content : String
  slug : String
  categories : List Int
  status : String
deriving DecidableEq, Repr

/-- `post_data` of `create_post`. -/
def WordPressAPI.postDataFor (title content slug : String) (category_id : Int)
    (status : String) : PostData :=
  { title := title
    content := content
    slug := WordPressAPI.sanitize_slug slug
    categories := [category_id]
    status := status }

/-- `WordPressAPI.create_post` (`wordpress_api.py` 24-80).  `http` plays
the external server: it maps the request body to the session's outcome.
Status 201 with a parsable body is success; any other status yields the
structured error `"HTTP {status}: {text}"`; transport exceptions and a
non-parsing success body fall into the `except` arms. -/
def WordPressAPI.create_post (http : PostData → Except NetExc HttpResponse)
    (title content slug : String) (category_id : Int) (status : String) :
    WPCallResult :=
  let post_data := WordPressAPI.postDataFor title content slug category_id status
  match http post_data with
  | .error .timeout => .err "Request timeout"
  | .error .connectionError => .err "Connection error"
  | .error (.other m) => .err ("Unexpected error: " ++ m)
  | .ok r =>
    if r.status_code = 201 then
      match r.jsonBody with
      | some info => .ok info.id info.link info.slug
      | none => .err ("Unexpected error: " ++ "response body is not a post object")
    else
      .err ("HTTP " ++ toString r.status_code ++ ": " ++ r.text)

/- ### Pipeline (`src/core/content_processor.py`) -/

/-- Python `str.replace pat rep` on character lists for a non-empty
pattern, with fuel bounding the recursion by the input length (each
recursive call consumes at least one character). -/
def strReplaceAux (pat rep : List Char) : Nat → List Char → List Char
  | 0, l => l
  | _ + 1, [] => []
  | fuel + 1, c :: rest =>
    if pat ≠ [] ∧ List.take pat.length (c :: rest) = pat then
      rep ++ strReplaceAux pat rep fuel (List.drop (pat.length - 1) rest)
    else
      c :: strReplaceAux pat rep fuel rest

/-- `template.replace('<keyword>', keyword)` (`content_processor.py` 82). -/
def strReplace (s pat rep : String) : String :=
  String.mk (strReplaceAux pat.data rep.data s.data.length s.data)

/-- The two external collaborators, abstracted: `gen` is
`GeminiProvider.generate_content` (prompt to `{'title', 'content'}` or a
raised `Exception` message) and `http` is the WordPress server behind
`WordPressAPI.create_post`. -/
structure Env where
  gen : String → Except String (String × String)
  http : PostData → Except NetExc HttpResponse

/-- `ContentProcessor.process_single_keyword` (`content_processor.py`
74-127): substitute the keyword into the prompt template, generate,
slug, publish; every failure is caught and becomes a `success := false`
outcome.  Wall-clock `processing_time` is abstracted to `0`. -/
def ContentProcessor.process_single_keyword (env : Env) (proj : Project)
    (keyword : String) : ProcessingResult :=
  match env.gen (strReplace proj.prompt_template "<keyword>" keyword) with
  | .error e =>
    { keyword := keyword, success := false, title := "", post_id := none
      post_url := "", error_message := e, processing_time := 0 }
  | .ok (title, content) =>
    let slug := ContentProcessor.create_slug keyword
    match WordPressAPI.create_post env.http title content slug
        proj.category_id proj.status with
    | .ok pid purl _ =>
      { keyword := keyword, success := true, title := title
        post_id := some pid, post_url := purl, error_message := ""
        processing_time := 0 }
    | .err e =>
      { keyword := keyword, success := false, title := title
        post_id := none, post_url := "", error_message := e
        processing_time := 0 }

/-- The `for index, keyword in enumerate(...)` loop of
`ContentProcessor.process_all_keywords` (`content_processor.py` 24-72):
one result is appended per keyword; the progress callback and the
inter-request delay do not touch the result list. -/
def ContentProcessor.processLoop (env : Env) (proj : Project) :
    List String → List ProcessingResult
  | [] => []
  | k :: ks =>
    ContentProcessor.process_single_keyword env proj k ::
      ContentProcessor.processLoop env proj ks

/-- `ContentProcessor.process_all_keywords`. -/
def ContentProcessor.process_all_keywords (env : Env) (proj : Project) :
    List ProcessingResult :=
  ContentProcessor.processLoop env proj proj.keywords

/- ### Cancellable run (`src/gui/progress_window.py` 176-227) -/

/-- Terminal states of one run: the `processing_complete`,
`processing_cancelled` and `processing_failed` continuations. -/
inductive RunState where
  | Completed
  | Cancelled
  | Failed
deriving DecidableEq, Repr

/-- The `ProgressWindow.process_keywords` loop.  `c i` is the value the
`is_cancelled` flag shows at its `i`-th top-of-loop read (the flag is
set by the UI thread and never cleared during a run, so a read taken
right after a `break` still shows `true`); after the loop runs out of
keywords the flag is read once more to pick the terminal state. -/
def ProgressWindow.processFrom (env : Env) (proj : Project) (c : Nat → Bool) :
    List String → Nat → List ProcessingResult × RunState
  | [], i => ([], if c i then .Cancelled else .Completed)
  | k :: ks, i =>
    if c i then ([], .Cancelled)
    else
      let r := ContentProcessor.process_single_keyword env proj k
      let (rs, st) := ProgressWindow.processFrom env proj c ks (i + 1)
      (r :: rs, st)

/-- `ProgressWindow.process_keywords` over the project's keyword list. -/
def ProgressWindow.process_keywords (env : Env) (proj : Project)
    (c : Nat → Bool) : List ProcessingResult × RunState :=
  ProgressWindow.processFrom env proj c proj.keywords 0

/- ### Invariants of the slug pipeline and concrete fixtures -/

/-- No two adjacent hyphens. -/
def NoHH (l : List Char) : Prop :=
  List.Chain' (fun x y => ¬(x = '-' ∧ y = '-')) l

/-- Neither end of the list is a hyphen. -/
def NoEdgeH (l : List Char) : Prop :=
  l.head? ≠ some '-' ∧ l.reverse.head? ≠ some '-'

/-- A concrete cipher for evaluating the store on explicit inputs:
prepend a marker character; decoding rejects any blob that does not
start with the marker (a truncated or corrupted token). -/
def trivialCipher : Cipher where
  enc s := String.mk ('E' :: s.data)
  dec t :=
    match t.data with
    | 'E' :: rest => some (String.mk rest)
    | _ => none
  dec_enc s := rfl
  enc_ne s _ := by
    intro hc
    have := congrArg String.data hc
    simp at this

/-- A concrete record for witnesses. -/
def sampleProject (pid pname pw key : String) (kws : List String) : Project :=
  { id := pid
    name := pname
    website_url := "https://example.org"
    username := "author"
    app_password := pw
    category_id := 3
    status := "draft"
    keywords := kws
    prompt_template := "<keyword>"
    ai_api_key := key
    ai_provider_type := "gemini"
    created_at := some "2024-01-01T00:00:00"
    updated_at := some "2024-01-01T00:00:00" }

/-- A 201 reply with a parsable body. -/
def okResponse : HttpResponse :=
  { status_code := 201
    text := "created"
    jsonBody := some { id := 7, link := "https://example.org/?p=7", slug := "s7" } }

/-- Collaborators that always succeed. -/
def envAllOk : Env where
  gen _ := .ok ("Title", "Body")
  http _ := .ok okResponse

/-- Collaborators whose generator fails exactly on the prompt `bad`. -/
def envFailOn (bad : String) : Env where
  gen p := if p = bad then .error "Gemini API error: boom" else .ok ("Title", "Body")
  http _ := .ok okResponse

/-- A cancellation-flag history: false at the first top-of-loop read,
true from the second read on (the signal lands during the first
inter-keyword delay). -/
def cancelAfterFirst : Nat → Bool := fun i => decide (1 ≤ i)

/-- Fixture records for the repository claims. -/
def recA : Project := sampleProject "id-1" "alpha" "pw-a" "key-a" ["k1", "k2"]

/-- Second fixture record, distinct name and id. -/
def recB : Project := sampleProject "id-2" "beta" "pw-b" "key-b" ["k3"]

/-- An update payload whose name collides with `recA`. -/
def recBNamedA : Project := sampleProject "id-2" "alpha" "pw-b2" "key-b2" ["k4"]

/-- A repository state holding `recA` and `recB` with a consistent disk. -/
def pmStateAB : PMState :=
  { projects := [recA, recB]
    disk := DataStorage.save_projects trivialCipher [recA, recB] ⟨none, none⟩ }

/-- A stored document with a middle record whose `app_password`
ciphertext is truncated (it lost its marker, so decryption fails). -/
def corruptedDoc : StoreDoc :=
  { version := "1.0"
    projects :=
      [DataStorage.storeRecord trivialCipher recA,
       { DataStorage.storeRecord trivialCipher recB with app_password := "X" },
       DataStorage.storeRecord trivialCipher recBNamedA] }

/-- File system holding `corruptedDoc` at the target path. -/
def corruptedFS : FS := { target := some (.complete corruptedDoc), tmp := none }

/-- An update payload for `recA` (same id, fresh keywords). -/
def recAv2 : Project := sampleProject "id-1" "alpha" "pw-a2" "key-a2" ["k9"]

/-- A record whose name collides with no existing fixture. -/
def recC : Project := sampleProject "id-3" "gamma" "" "key-c" ["k5"]

/-- A project with three keywords whose prompt template is the bare
placeholder, so each prompt is the keyword itself. -/
def projC5 : Project := sampleProject "id-5" "run" "pw" "key" ["k1", "k2", "k3"]

/-- A 2xx response that is not 201. -/
def resp200 : HttpResponse :=
  { status_code := 200
    text := "OK body"
    jsonBody := some { id := 9, link := "https://example.org/?p=9", slug := "s9" } }

/-- Initial file system for the atomicity scenario: the prior document. -/
def fsOldC2 : FS :=
  { target := some (.complete (storedDoc trivialCipher [recA])), tmp := none }

/-- The new document being saved in the atomicity scenario. -/
def docNewC2 : StoreDoc := storedDoc trivialCipher [recB]

/-- The file-system state right after the `os.remove` step of a save of
`docNewC2` over `fsOldC2`: the target path is empty, the new document
sits only at the temporary path. -/
def sMidC2 : FS := { target := none, tmp := some (.complete docNewC2) }

/-! ## Helper lemmas: the slug pipeline -/

theorem lowerChar_slug (c : Char) (h : isSlugChar c = true) : lowerChar c = c := by
  simp only [isSlugChar, Bool.or_eq_true, Bool.and_eq_true, decide_eq_true_eq,
    beq_iff_eq] at h
  unfold lowerChar
  rw [if_neg]
  omega

theorem map_lowerChar_eq (l : List Char) (h : ∀ c ∈ l, isSlugChar c = true) :
    l.map lowerChar = l := by
  induction l with
  | nil => rfl
  | cons a t ih =>
    simp only [List.map_cons]
    rw [lowerChar_slug a (h a (by simp)), ih (fun c hc => h c (by simp [hc]))]

theorem replaceChar_eq (a b : Char) (l : List Char) (ha : isSlugChar a = false)
    (h : ∀ c ∈ l, isSlugChar c = true) : replaceChar a b l = l := by
  induction l with
  | nil => rfl
  | cons x t ih =>
    simp only [replaceChar, List.map_cons] at ih ⊢
    rw [if_neg, ih (fun c hc => h c (by simp [hc]))]
    intro he
    rw [← he] at ha
    rw [h x (by simp)] at ha
    exact Bool.true_eq_false.mp ha

theorem collapseHyphens_cons (b : Char) (l : List Char) :
    ∃ t, collapseHyphens (b :: l) = b :: t := by
  induction l generalizing b with
  | nil => exact ⟨[], rfl⟩
  | cons r rs ih =>
    by_cases hbr : b = '-' ∧ r = '-'
    · obtain ⟨t, ht⟩ := ih r
      refine ⟨t, ?_⟩
      simp only [collapseHyphens, if_pos hbr]
      rw [ht, hbr.1, hbr.2]
    · exact ⟨collapseHyphens (r :: rs), by simp only [collapseHyphens, if_neg hbr]⟩

theorem noHH_collapseHyphens : ∀ l, NoHH (collapseHyphens l)
  | [] => by simp [collapseHyphens, NoHH]
  | [c] => by simp [collapseHyphens, NoHH, List.chain'_singleton]
  | a :: b :: rest => by
    have hr := noHH_collapseHyphens (b :: rest)
    by_cases h : a = '-' ∧ b = '-'
    · simpa only [collapseHyphens, if_pos h] using hr
    · obtain ⟨t, ht⟩ := collapseHyphens_cons b rest
      simp only [collapseHyphens, if_neg h]
      rw [ht] at hr ⊢
      exact List.chain'_cons.mpr ⟨h, hr⟩

theorem collapseHyphens_eq_self : ∀ l, NoHH l → collapseHyphens l = l
  | [], _ => rfl
  | [_], _ => rfl
  | a :: b :: rest, h => by
    have h1 : ¬(a = '-' ∧ b = '-') := (List.chain'_cons.mp h).1
    have h2 : NoHH (b :: rest) := (List.chain'_cons.mp h).2
    simp only [collapseHyphens, if_neg h1]
    rw [collapseHyphens_eq_self (b :: rest) h2]

theorem mem_collapseHyphens : ∀ l c, c ∈ collapseHyphens l → c ∈ l
  | [], _, h => by simp [collapseHyphens] at h
  | [x], c, h => by simpa [collapseHyphens] using h
  | a :: b :: rest, c, h => by
    by_cases hab : a = '-' ∧ b = '-'
    · simp only [collapseHyphens, if_pos hab] at h
      exact List.mem_cons_of_mem a (mem_collapseHyphens (b :: rest) c h)
    · simp only [collapseHyphens, if_neg hab, List.mem_cons] at h
      rcases h with h | h
      · exact h ▸ List.mem_cons_self a (b :: rest)
      · exact List.mem_cons_of_mem a (mem_collapseHyphens (b :: rest) c h)

theorem dropWhile_hyphen_eq_self (l : List Char) (h : l.head? ≠ some '-') :
    l.dropWhile (fun c => c = '-') = l := by
  cases l with
  | nil => rfl
  | cons a t =>
    rw [List.dropWhile_cons, if_neg]
    simp only [List.head?_cons, ne_eq, Option.some.injEq] at h
    simp [h]

theorem dropWhile_hyphen_head : ∀ (l : List Char) (x : Char),
    (l.dropWhile (fun c => c = '-')).head? = some x → x ≠ '-'
  | [], x, h => by simp at h
  | a :: t, x, h => by
    rw [List.dropWhile_cons] at h
    by_cases ha : a = '-'
    · exact dropWhile_hyphen_head t x (by simpa [ha] using h)
    · rw [if_neg (by simpa using ha)] at h
      simp only [List.head?_cons, Option.some.injEq] at h
      exact h ▸ ha

theorem getLast?_cons_ne {α : Type} (a : α) (t : List α) (h : t ≠ []) :
    (a :: t).getLast? = t.getLast? := by
  cases t with
  | nil => exact absurd rfl h
  | cons b t' => exact List.getLast?_cons_cons

theorem dropWhile_hyphen_getLast? : ∀ (l : List Char),
    l.dropWhile (fun c => c = '-') ≠ [] →
    (l.dropWhile (fun c => c = '-')).getLast? = l.getLast?
  | [], h => absurd rfl h
  | a :: t, h => by
    by_cases ha : a = '-'
    · rw [List.dropWhile_cons, if_pos (by simpa using ha)] at h ⊢
      have hne : t ≠ [] := by
        intro he
        rw [he] at h
        exact h rfl
      rw [dropWhile_hyphen_getLast? t h, getLast?_cons_ne a t hne]
    · rw [List.dropWhile_cons, if_neg (by simpa using ha)]

theorem noHH_dropWhile_hyphen : ∀ (l : List Char), NoHH l →
    NoHH (l.dropWhile (fun c => c = '-'))
  | [], h => h
  | a :: t, h => by
    by_cases ha : a = '-'
    · rw [List.dropWhile_cons, if_pos (by simpa using ha)]
      exact noHH_dropWhile_hyphen t h.tail
  /- the `else` branch keeps the list -/
    · rwa [List.dropWhile_cons, if_neg (by simpa using ha)]

theorem noHH_reverse (l : List Char) (h : NoHH l) : NoHH l.reverse := by
  unfold NoHH at h ⊢
  rw [List.chain'_reverse]
  exact h.imp (fun a b hab => by
    intro hc
    exact hab ⟨hc.2, hc.1⟩)

theorem mem_dropWhile_hyphen : ∀ (l : List Char) (x : Char),
    x ∈ l.dropWhile (fun c => c = '-') → x ∈ l
  | [], _, h => h
  | a :: t, x, h => by
    by_cases ha : a = '-'
    · rw [List.dropWhile_cons, if_pos (by simpa using ha)] at h
      exact List.mem_cons_of_mem a (mem_dropWhile_hyphen t x h)
    · rwa [List.dropWhile_cons, if_neg (by simpa using ha)] at h

theorem mem_stripHyphens (l : List Char) (x : Char) (h : x ∈ stripHyphens l) :
    x ∈ l := by
  unfold stripHyphens at h
  rw [List.mem_reverse] at h
  have h1 := mem_dropWhile_hyphen _ x h
  rw [List.mem_reverse] at h1
  exact mem_dropWhile_hyphen l x h1

theorem noHH_stripHyphens (l : List Char) (h : NoHH l) : NoHH (stripHyphens l) := by
  unfold stripHyphens
  exact noHH_reverse _ (noHH_dropWhile_hyphen _ (noHH_reverse _ (noHH_dropWhile_hyphen l h)))

theorem noEdgeH_stripHyphens (l : List Char) : NoEdgeH (stripHyphens l) := by
  unfold stripHyphens NoEdgeH
  constructor
  · rw [List.head?_reverse]
    by_cases hv : (((l.dropWhile fun c => c = '-').reverse).dropWhile fun c => c = '-') = []
    · simp [hv]
    · rw [dropWhile_hyphen_getLast? _ hv, List.getLast?_reverse]
      intro hc
      exact dropWhile_hyphen_head l '-' hc rfl
  · rw [List.reverse_reverse]
    intro hc
    exact dropWhile_hyphen_head _ '-' hc rfl

theorem stripHyphens_eq_self (l : List Char) (h : NoEdgeH l) :
    stripHyphens l = l := by
  unfold stripHyphens
  rw [dropWhile_hyphen_eq_self l h.1, dropWhile_hyphen_eq_self l.reverse h.2,
    List.reverse_reverse]

theorem isSlugChar_space : isSlugChar ' ' = false := by decide

theorem isSlugChar_underscore : isSlugChar '_' = false := by decide

theorem sanitize_slug_of_normal (m : List Char)
    (hall : ∀ c ∈ m, isSlugChar c = true) (hhh : NoHH m) (he : NoEdgeH m) :
    WordPressAPI.sanitize_slug (String.mk m) = String.mk (m.take 50) := by
  show String.mk ((stripHyphens (collapseHyphens (List.filter isSlugChar
    (replaceChar '_' '-' (replaceChar ' ' '-'
      ((String.mk m).data.map lowerChar)))))).take 50) = String.mk (m.take 50)
  have hd : (String.mk m).data = m := rfl
  rw [hd, map_lowerChar_eq m hall, replaceChar_eq ' ' '-' m isSlugChar_space hall,
    replaceChar_eq '_' '-' m isSlugChar_underscore hall,
    List.filter_eq_self.mpr hall, collapseHyphens_eq_self m hhh,
    stripHyphens_eq_self m he]

theorem create_slug_normal (k : String) :
    (∀ c ∈ (ContentProcessor.create_slug k).data, isSlugChar c = true)
    ∧ NoHH (ContentProcessor.create_slug k).data
    ∧ NoEdgeH (ContentProcessor.create_slug k).data := by
  have hd : (ContentProcessor.create_slug k).data
      = stripHyphens (collapseHyphens (List.filter isSlugChar
        (replaceChar ' ' '-' (k.data.map lowerChar)))) := rfl
  refine ⟨?_, ?_, ?_⟩
  · intro c hc
    rw [hd] at hc
    exact List.of_mem_filter (mem_collapseHyphens _ c (mem_stripHyphens _ c hc))
  · rw [hd]
    exact noHH_stripHyphens _ (noHH_collapseHyphens _)
  · rw [hd]
    exact noEdgeH_stripHyphens _

/-! ## Claim C3 -/

/-- Claim C3 fails as stated: on the spec's own example `"  a--b__c  "`
the pipeline hands the publisher `"a-bc"`, not the `"a-b-c"` that the
described transformation (underscores mapped to hyphens) produces — the
first stage deletes underscores before the sanitizer could map them. -/
theorem C3_counterexample :
    slugSentToPublisher "  a--b__c  " = "a-bc"
    ∧ specSlug "  a--b__c  " = "a-b-c"
    ∧ slugSentToPublisher "  a--b__c  " ≠ specSlug "  a--b__c  " :=
  ⟨by decide, by decide, by decide⟩

/-- Claim C3 (amended): for every keyword the slug handed to the
publisher equals lowercasing, mapping spaces to hyphens, deleting every
character outside `[a-z0-9-]` (underscores included), collapsing hyphen
runs, trimming edge hyphens and truncating to 50 characters; the first
spec example `"Best Coffee Makers 2024!"` still yields
`"best-coffee-makers-2024"`, while `"  a--b__c  "` yields `"a-bc"`. -/
theorem C3_amended_slug_pipeline :
    (∀ k, slugSentToPublisher k = amendedSlugSpec k)
    ∧ slugSentToPublisher "Best Coffee Makers 2024!" = "best-coffee-makers-2024"
    ∧ slugSentToPublisher "  a--b__c  " = "a-bc" := by
  refine ⟨?_, by decide, by decide⟩
  intro k
  obtain ⟨hall, hhh, he⟩ := create_slug_normal k
  exact sanitize_slug_of_normal (ContentProcessor.create_slug k).data hall hhh he

/-! ## Claims C1 and C4: repository invariants -/

theorem save_projects_target (c : Cipher) (ps : List Project) (fs : FS) :
    DataStorage.save_projects c ps fs
      = { target := some (.complete (storedDoc c ps)), tmp := none } := rfl

theorem consistentDisk_after_save (c : Cipher) (s : PMState) :
    PMState.consistentDisk c
      { s with disk := DataStorage.save_projects c s.projects s.disk } := rfl

/-- Claim C1 fails as stated: with a consistent two-record repository,
an `update_project` whose underlying save fails still returns `True`,
leaving the in-memory collection ahead of the durable document —
`update_project` (like `delete_project`) discards the boolean that
`save_projects` uses to report persistence failure. -/
theorem C1_counterexample :
    PMState.consistentDisk trivialCipher pmStateAB
    ∧ (ProjectManager.update_project trivialCipher false "id-1" recAv2 pmStateAB).2
        = Except.ok true
    ∧ ¬ PMState.consistentDisk trivialCipher
        (ProjectManager.update_project trivialCipher false "id-1" recAv2 pmStateAB).1 := by
  refine ⟨?_, rfl, ?_⟩
  · unfold PMState.consistentDisk
    decide
  · unfold PMState.consistentDisk
    decide

/-- Claim C1 (amended): `add_project` couples persistence to its result
— whenever it reports success the in-memory collection and the durable
document agree; `update_project` and `delete_project` report success
whenever the id is found regardless of the save outcome, so for them the
agreement is guaranteed only when the underlying save succeeds. -/
theorem C1_amended_consistency (c : Cipher) (ok : Bool) (p upd : Project)
    (pid : String) (s : PMState) :
    ((ProjectManager.add_project c ok p s).2 = Except.ok true →
      PMState.consistentDisk c (ProjectManager.add_project c ok p s).1)
    ∧ (ok = true →
        (ProjectManager.update_project c ok pid upd s).2 = Except.ok true →
        PMState.consistentDisk c (ProjectManager.update_project c ok pid upd s).1)
    ∧ (ok = true →
        (ProjectManager.delete_project c ok pid s).2 = Except.ok true →
        PMState.consistentDisk c (ProjectManager.delete_project c ok pid s).1) := by
  refine ⟨?_, ?_, ?_⟩
  · intro h
    unfold ProjectManager.add_project at h ⊢
    by_cases hd : s.projects.any (fun q => q.name = p.name)
    · rw [if_pos hd] at h
      exact absurd h (by simp)
    · rw [if_neg hd] at h ⊢
      unfold ProjectManager.save_projects at h ⊢
      cases ok with
      | false => simp at h
      | true => exact consistentDisk_after_save c _
  · intro hok h
    unfold ProjectManager.update_project at h ⊢
    cases hfi : s.projects.findIdx? (fun q => q.id = pid) with
    | none =>
      rw [hfi] at h
      simp at h
    | some i =>
      subst hok
      exact consistentDisk_after_save c _
  · intro hok h
    unfold ProjectManager.delete_project at h ⊢
    cases hfi : s.projects.findIdx? (fun q => q.id = pid) with
    | none =>
      rw [hfi] at h
      simp at h
    | some i =>
      subst hok
      exact consistentDisk_after_save c _

/-- Claim C1 amended, exercised: a successful `add_project` of a fresh
record over the two-record fixture leaves memory and disk in agreement. -/
theorem C1_amended_consistency_witness :
    PMState.consistentDisk trivialCipher
      (ProjectManager.add_project trivialCipher true recC pmStateAB).1 :=
  (C1_amended_consistency trivialCipher true recC recC "id-1" pmStateAB).1 rfl

/-- Claim C4 fails as stated: starting from two records with distinct
names, updating the second record to carry the first record's name
succeeds (`update_project` performs no name check), leaving two records
named `"alpha"`. -/
theorem C4_counterexample :
    PMState.namesDistinct pmStateAB
    ∧ (ProjectManager.update_project trivialCipher true "id-2" recBNamedA pmStateAB).2
        = Except.ok true
    ∧ ¬ PMState.namesDistinct
        (ProjectManager.update_project trivialCipher true "id-2" recBNamedA pmStateAB).1 := by
  refine ⟨?_, rfl, ?_⟩
  · unfold PMState.namesDistinct
    decide
  · unfold PMState.namesDistinct
    decide

/-- Claim C4 (amended): name distinctness is preserved by `add_project`
(which rejects a colliding name with `ValueError`, leaving the state
unchanged) and by `delete_project`; `update_project` performs no name
check and can introduce a duplicate name. -/
theorem C4_amended_uniqueness (c : Cipher) (ok : Bool) (p : Project)
    (pid : String) (s : PMState) :
    (PMState.namesDistinct s →
      PMState.namesDistinct (ProjectManager.add_project c ok p s).1)
    ∧ ((∃ q ∈ s.projects, q.name = p.name) →
        ProjectManager.add_project c ok p s = (s, Except.error PMErr.duplicateName))
    ∧ (PMState.namesDistinct s →
        PMState.namesDistinct (ProjectManager.delete_project c ok pid s).1) := by
  refine ⟨?_, ?_, ?_⟩
  · intro hs
    unfold ProjectManager.add_project
    by_cases hd : s.projects.any (fun q => q.name = p.name)
    · rw [if_pos hd]
      exact hs
    · rw [if_neg hd]
      unfold ProjectManager.save_projects
      have hnotin : p.name ∉ s.projects.map (·.name) := by
        intro hmem
        obtain ⟨q, hq, hqn⟩ := List.mem_map.mp hmem
        exact hd (List.any_eq_true.mpr ⟨q, hq, by simp [hqn]⟩)
      have hnew : PMState.namesDistinct { s with projects := s.projects ++ [p] } := by
        unfold PMState.namesDistinct at hs ⊢
        rw [List.map_append]
        simp [List.nodup_append, hs, hnotin]
      cases ok with
      | false => exact hnew
      | true => exact hnew
  · intro ⟨q, hq, hqn⟩
    unfold ProjectManager.add_project
    rw [if_pos (List.any_eq_true.mpr ⟨q, hq, by simp [hqn]⟩)]
  · intro hs
    unfold ProjectManager.delete_project
    cases hfi : s.projects.findIdx? (fun q => q.id = pid) with
    | none => exact hs
    | some i =>
      unfold ProjectManager.save_projects
      have herase : PMState.namesDistinct { s with projects := s.projects.eraseIdx i } := by
        unfold PMState.namesDistinct at hs ⊢
        exact hs.sublist ((List.eraseIdx_sublist s.projects i).map (·.name))
      cases ok with
      | false => exact herase
      | true => exact herase

/-- Claim C4 amended, exercised: adding a record named `"alpha"` to the
fixture already holding one is rejected and changes nothing. -/
theorem C4_amended_uniqueness_witness :
    ProjectManager.add_project trivialCipher true recBNamedA pmStateAB
      = (pmStateAB, Except.error PMErr.duplicateName) :=
  (C4_amended_uniqueness trivialCipher true recBNamedA "id-1" pmStateAB).2.1 (by decide)

/-! ## Claim C2: save atomicity -/

theorem load_projects_congr (c : Cipher) (now : String) (fs fs' : FS)
    (h : fs.target = fs'.target) :
    DataStorage.load_projects c now fs = DataStorage.load_projects c now fs' := by
  unfold DataStorage.load_projects
  rw [h]

/-- Claim C2 fails as stated: saving a new document over a prior one
passes through the state right after `os.remove`, where the target path
holds nothing — neither the prior complete document nor the new one (the
new document exists only at the temporary path at that moment). -/
theorem C2_counterexample :
    sMidC2 ∈ DataStorage.saveStates docNewC2 fsOldC2
    ∧ sMidC2.target ≠ some (FileData.complete (storedDoc trivialCipher [recA]))
    ∧ sMidC2.target ≠ some (FileData.complete docNewC2)
    ∧ DataStorage.load_projects trivialCipher "t1" sMidC2 = [] := by
  refine ⟨by decide, by decide, by decide, rfl⟩

/-- Claim C2 (amended): at every intermediate state of a save the target
path holds the initial contents, nothing at all, or the new complete
document; in particular it is never a half-written file (when it was not
one initially), so a load at any such state yields the prior load
result, the empty list, or the new document's records — never a partial
parse. -/
theorem C2_amended_atomicity (doc : StoreDoc) (fs : FS) (s : FS)
    (hs : s ∈ DataStorage.saveStates doc fs) :
    (s.target = fs.target ∨ s.target = none
      ∨ s.target = some (FileData.complete doc))
    ∧ (fs.target ≠ some FileData.truncated → s.target ≠ some FileData.truncated)
    ∧ ∀ (c : Cipher) (now : String),
        DataStorage.load_projects c now s = DataStorage.load_projects c now fs
        ∨ DataStorage.load_projects c now s = []
        ∨ DataStorage.load_projects c now s = DataStorage.loadLoop c now doc.projects := by
  simp only [DataStorage.saveStates, saveStepOrder, List.scanl, DataStorage.saveStep,
    List.mem_cons, List.mem_singleton, List.not_mem_nil, or_false] at hs
  rcases hs with h | h | h | h | h
  all_goals subst h
  · exact ⟨Or.inl rfl, fun ht => ht, fun c now => Or.inl rfl⟩
  · exact ⟨Or.inl rfl, fun ht => ht,
      fun c now => Or.inl (load_projects_congr c now _ fs rfl)⟩
  · exact ⟨Or.inl rfl, fun ht => ht,
      fun c now => Or.inl (load_projects_congr c now _ fs rfl)⟩
  · exact ⟨Or.inr (Or.inl rfl), fun _ h => by simp at h, fun c now => Or.inr (Or.inl rfl)⟩
  · exact ⟨Or.inr (Or.inr rfl), fun _ h => by simp at h, fun c now => Or.inr (Or.inr rfl)⟩

/-- Claim C2 amended, exercised: the state after `os.remove` in the
concrete scenario has an empty target — one of the three allowed shapes,
and not a half-written file. -/
theorem C2_amended_atomicity_witness :
    sMidC2.target = fsOldC2.target ∨ sMidC2.target = none
      ∨ sMidC2.target = some (FileData.complete docNewC2) :=
  (C2_amended_atomicity docNewC2 fsOldC2 sMidC2 (by decide)).1

/-! ## Claims C5 and C6: pipeline runs -/

theorem processLoop_eq_map (env : Env) (proj : Project) (ks : List String) :
    ContentProcessor.processLoop env proj ks
      = ks.map (ContentProcessor.process_single_keyword env proj) := by
  induction ks with
  | nil => rfl
  | cons k t ih => simp [ContentProcessor.processLoop, ih]

theorem process_single_keyword_gen_fail (env : Env) (proj : Project)
    (k e : String)
    (hg : env.gen (strReplace proj.prompt_template "<keyword>" k) = .error e) :
    ContentProcessor.process_single_keyword env proj k
      = { keyword := k, success := false, title := "", post_id := none,
          post_url := "", error_message := e, processing_time := 0 } := by
  unfold ContentProcessor.process_single_keyword
  rw [hg]

theorem process_single_keyword_publish_fail (env : Env) (proj : Project)
    (k t b e : String)
    (hg : env.gen (strReplace proj.prompt_template "<keyword>" k) = .ok (t, b))
    (hw : WordPressAPI.create_post env.http t b (ContentProcessor.create_slug k)
        proj.category_id proj.status = .err e) :
    ContentProcessor.process_single_keyword env proj k
      = { keyword := k, success := false, title := t, post_id := none,
          post_url := "", error_message := e, processing_time := 0 } := by
  unfold ContentProcessor.process_single_keyword
  rw [hg]
  simp only []
  rw [hw]

/-- Claim C5: an uncancelled run over a project with `n` keywords yields
exactly `n` outcomes; outcome `i` is the processing of keyword `i` alone
(so it is in keyword order, carries that keyword, and is unaffected by
what happens to the other keywords); a generation failure or a publish
failure on a keyword yields a `success := false` outcome for it without
aborting the run. -/
theorem C5_run_shape (env : Env) (proj : Project) :
    (ContentProcessor.process_all_keywords env proj).length = proj.keywords.length
    ∧ (∀ i : Nat, (ContentProcessor.process_all_keywords env proj)[i]?
        = (proj.keywords[i]?).map (ContentProcessor.process_single_keyword env proj))
    ∧ (∀ (i : Nat) (k : String), proj.keywords[i]? = some k →
        ((ContentProcessor.process_all_keywords env proj)[i]?).map
          (fun r : ProcessingResult => r.keyword) = some k)
    ∧ (∀ (i : Nat) (k e : String), proj.keywords[i]? = some k →
        env.gen (strReplace proj.prompt_template "<keyword>" k) = .error e →
        (ContentProcessor.process_all_keywords env proj)[i]?
          = some { keyword := k, success := false, title := "", post_id := none,
                   post_url := "", error_message := e, processing_time := 0 })
    ∧ (∀ (i : Nat) (k t b e : String), proj.keywords[i]? = some k →
        env.gen (strReplace proj.prompt_template "<keyword>" k) = .ok (t, b) →
        WordPressAPI.create_post env.http t b (ContentProcessor.create_slug k)
          proj.category_id proj.status = .err e →
        (ContentProcessor.process_all_keywords env proj)[i]?
          = some { keyword := k, success := false, title := t, post_id := none,
                   post_url := "", error_message := e, processing_time := 0 }) := by
  have hmap : ContentProcessor.process_all_keywords env proj
      = proj.keywords.map (ContentProcessor.process_single_keyword env proj) :=
    processLoop_eq_map env proj proj.keywords
  have hidx : ∀ i : Nat, (ContentProcessor.process_all_keywords env proj)[i]?
      = (proj.keywords[i]?).map (ContentProcessor.process_single_keyword env proj) := by
    intro i
    rw [hmap, List.getElem?_map]
  refine ⟨by rw [hmap, List.length_map], hidx, ?_, ?_, ?_⟩
  · intro i k hk
    rw [hidx i, hk, Option.map_some', Option.map_some']
    unfold ContentProcessor.process_single_keyword
    cases env.gen (strReplace proj.prompt_template "<keyword>" k) with
    | error e => rfl
    | ok tb =>
      cases tb with
      | mk t b =>
        simp only []
        cases WordPressAPI.create_post env.http t b (ContentProcessor.create_slug k)
            proj.category_id proj.status with
        | ok pid purl sl => rfl
        | err e => rfl
  · intro i k e hk hg
    rw [hidx i, hk, Option.map_some', process_single_keyword_gen_fail env proj k e hg]
  · intro i k t b e hk hg hw
    rw [hidx i, hk, Option.map_some',
      process_single_keyword_publish_fail env proj k t b e hg hw]

/-- Claim C5, exercised: three keywords where the generator fails on the
second give exactly three outcomes, the second marked failed with the
generator's message, the first and third successful from their own
collaborator responses. -/
theorem C5_run_shape_witness :
    (ContentProcessor.process_all_keywords (envFailOn "k2") projC5).length = 3
    ∧ (ContentProcessor.process_all_keywords (envFailOn "k2") projC5)[1]?
      = some { keyword := "k2", success := false, title := "", post_id := none,
               post_url := "", error_message := "Gemini API error: boom",
               processing_time := 0 }
    ∧ ((ContentProcessor.process_all_keywords (envFailOn "k2") projC5)[0]?).map
        (·.success) = some true
    ∧ ((ContentProcessor.process_all_keywords (envFailOn "k2") projC5)[2]?).map
        (·.success) = some true := by
  have h := C5_run_shape (envFailOn "k2") projC5
  refine ⟨by rw [h.1]; rfl, ?_, ?_, ?_⟩
  · exact h.2.2.2.1 1 "k2" "Gemini API error: boom" rfl rfl
  · rw [h.2.1 0]
    decide
  · rw [h.2.1 2]
    decide

/-- Claim C6: cancellation is honored at iteration boundaries — with the
flag read `false` at the first boundary and `true` at the second (the
signal landing during the first inter-keyword delay), the run records
the complete outcome of the first keyword's calls, then stops: exactly
one outcome, terminal state `Cancelled`, no further keyword attempted. -/
theorem C6_cancellation (env : Env) (proj : Project) (c : Nat → Bool)
    (k0 k1 : String) (ks : List String) (hk : proj.keywords = k0 :: k1 :: ks)
    (h0 : c 0 = false) (h1 : c 1 = true) :
    ProgressWindow.process_keywords env proj c
      = ([ContentProcessor.process_single_keyword env proj k0],
         RunState.Cancelled) := by
  unfold ProgressWindow.process_keywords
  rw [hk]
  unfold ProgressWindow.processFrom
  rw [if_neg (by simp [h0])]
  unfold ProgressWindow.processFrom
  rw [if_pos (by simp [h1])]

/-- Claim C6, exercised: the three-keyword fixture cancelled during the
first delay yields one outcome and the `Cancelled` state. -/
theorem C6_cancellation_witness :
    ProgressWindow.process_keywords envAllOk projC5 cancelAfterFirst
      = ([ContentProcessor.process_single_keyword envAllOk projC5 "k1"],
         RunState.Cancelled) :=
  C6_cancellation envAllOk projC5 cancelAfterFirst "k1" "k2" ["k3"] rfl rfl rfl

/-! ## Claims C7 and C8: the store -/

theorem loadLoop_eq_filterMap (c : Cipher) (now : String) (ds : List Project) :
    DataStorage.loadLoop c now ds = ds.filterMap (DataStorage.loadRecord c now) := by
  induction ds with
  | nil => rfl
  | cons d t ih =>
    unfold DataStorage.loadLoop
    cases h : DataStorage.loadRecord c now d with
    | some p => simp [List.filterMap_cons, h, ih]
    | none => simp [List.filterMap_cons, h, ih]

/-- Claim C7: a load of a complete document returns exactly the records
whose sensitive-field decryption and reconstruction succeed, in document
order, and a record that fails to decrypt is skipped without making the
load fail — the remaining records on both sides of it are all returned. -/
theorem C7_load_skips_bad (c : Cipher) (now : String) (doc : StoreDoc) (fs : FS)
    (hfs : fs.target = some (FileData.complete doc)) :
    DataStorage.load_projects c now fs
      = doc.projects.filterMap (DataStorage.loadRecord c now)
    ∧ ∀ pre bad post, doc.projects = pre ++ bad :: post →
        DataStorage.loadRecord c now bad = none →
        DataStorage.load_projects c now fs
          = pre.filterMap (DataStorage.loadRecord c now)
            ++ post.filterMap (DataStorage.loadRecord c now) := by
  have h1 : DataStorage.load_projects c now fs
      = DataStorage.loadLoop c now doc.projects := by
    unfold DataStorage.load_projects
    rw [hfs]
  constructor
  · rw [h1, loadLoop_eq_filterMap]
  · intro pre bad post hsplit hbad
    rw [h1, loadLoop_eq_filterMap, hsplit, List.filterMap_append]
    simp [List.filterMap_cons, hbad]

/-- Claim C7, exercised: a three-record document whose middle record has
a truncated `app_password` ciphertext loads the other two records, in
order, with the corrupted one absent. -/
theorem C7_load_skips_bad_witness :
    DataStorage.load_projects trivialCipher "t1" corruptedFS
      = [{ recA with updated_at := some "t1" },
         { recBNamedA with updated_at := some "t1" }] := by
  have h := (C7_load_skips_bad trivialCipher "t1" corruptedDoc corruptedFS rfl).2
    [DataStorage.storeRecord trivialCipher recA]
    { DataStorage.storeRecord trivialCipher recB with app_password := "X" }
    [DataStorage.storeRecord trivialCipher recBNamedA] rfl (by decide)
  rw [h]
  decide

theorem decrypt_encrypt (c : Cipher) (s : String) :
    EncryptionManager.decrypt c (EncryptionManager.encrypt c s) = some s := by
  unfold EncryptionManager.encrypt EncryptionManager.decrypt
  by_cases hs : s = ""
  · simp [hs]
  · rw [if_neg hs, if_neg (c.enc_ne s hs), c.dec_enc]

theorem loadRecord_storeRecord (c : Cipher) (now : String) (p : Project) :
    DataStorage.loadRecord c now (DataStorage.storeRecord c p)
      = some (WordPressProject.from_dict now p) := by
  unfold DataStorage.loadRecord DataStorage.storeRecord
  simp only [decrypt_encrypt]

/-- Claim C8: saving a record list and loading it back yields the same
number of records, and for every index the keyword sequence of the
loaded record equals that of the saved record, element for element and
in the same order. -/
theorem C8_keywords_roundtrip (c : Cipher) (now : String)
    (projects : List Project) (fs : FS) :
    (DataStorage.load_projects c now
        (DataStorage.save_projects c projects fs)).length = projects.length
    ∧ ∀ i : Nat,
        ((DataStorage.load_projects c now
            (DataStorage.save_projects c projects fs))[i]?).map
          (fun p : Project => p.keywords)
        = (projects[i]?).map (fun p : Project => p.keywords) := by
  have hload : DataStorage.load_projects c now
      (DataStorage.save_projects c projects fs)
      = DataStorage.loadLoop c now (projects.map (DataStorage.storeRecord c)) := rfl
  have hmap : DataStorage.load_projects c now
      (DataStorage.save_projects c projects fs)
      = projects.map (fun p => WordPressProject.from_dict now p) := by
    rw [hload, loadLoop_eq_filterMap, List.filterMap_map]
    have hc : (DataStorage.loadRecord c now ∘ DataStorage.storeRecord c)
        = some ∘ (fun p => WordPressProject.from_dict now p) := by
      funext p
      exact loadRecord_storeRecord c now p
    rw [hc]
    exact congrFun (List.filterMap_eq_map _) projects
  constructor
  · rw [hmap, List.length_map]
  · intro i
    rw [hmap, List.getElem?_map]
    cases projects[i]? with
    | none => rfl
    | some p => rfl

/-! ## Claim C9: publisher status handling -/

/-- Claim C9 fails as stated: a response with status 200 — a 2xx status
— is not treated as success by `create_post`; only 201 is.  The call
returns the structured error carrying the status and body instead. -/
theorem C9_counterexample :
    resp200.status_code / 100 = 2
    ∧ WordPressAPI.create_post (fun _ => Except.ok resp200) "T" "B" "slug" 3 "draft"
        = WPCallResult.err "HTTP 200: OK body" := by
  exact ⟨rfl, rfl⟩

/-- Claim C9 (amended): `create_post` treats exactly status 201 as
success, returning the created post's identifier and URL from the reply
body; every other status — other 2xx codes included — yields a
structured failure whose message carries the upstream status and body. -/
theorem C9_amended_status (r : HttpResponse) (info : PostInfo)
    (title content slug : String) (cid : Int) (st : String) :
    (r.status_code = 201 → r.jsonBody = some info →
      WordPressAPI.create_post (fun _ => Except.ok r) title content slug cid st
        = WPCallResult.ok info.id info.link info.slug)
    ∧ (r.status_code ≠ 201 →
      WordPressAPI.create_post (fun _ => Except.ok r) title content slug cid st
        = WPCallResult.err ("HTTP " ++ toString r.status_code ++ ": " ++ r.text)) := by
  constructor
  · intro h1 h2
    unfold WordPressAPI.create_post
    simp [h1, h2]
  · intro h1
    unfold WordPressAPI.create_post
    simp [h1]

/-- Claim C9 amended, exercised at a 201 reply and at the 200 reply. -/
theorem C9_amended_status_witness :
    WordPressAPI.create_post (fun _ => Except.ok okResponse) "T" "B" "s" 3 "draft"
      = WPCallResult.ok 7 "https://example.org/?p=7" "s7"
    ∧ WordPressAPI.create_post (fun _ => Except.ok resp200) "T" "B" "s" 3 "draft"
      = WPCallResult.err "HTTP 200: OK body" := by
  constructor
  · exact (C9_amended_status okResponse
      { id := 7, link := "https://example.org/?p=7", slug := "s7" }
      "T" "B" "s" 3 "draft").1 rfl rfl
  · exact (C9_amended_status resp200
      { id := 9, link := "https://example.org/?p=9", slug := "s9" }
      "T" "B" "s" 3 "draft").2 (by decide)

/-! ## Claim C10: timestamp overwriting -/

theorem mem_loadLoop_updated_at (c : Cipher) (now : String) :
    ∀ (ds : List Project) (p : Project),
      p ∈ DataStorage.loadLoop c now ds → p.updated_at = some now := by
  intro ds
  induction ds with
  | nil => intro p hp; simp [DataStorage.loadLoop] at hp
  | cons d t ih =>
    intro p hp
    unfold DataStorage.loadLoop at hp
    cases hd : DataStorage.loadRecord c now d with
    | none =>
      rw [hd] at hp
      exact ih p hp
    | some q =>
      rw [hd] at hp
      rcases List.mem_cons.mp hp with h | h
      · subst h
        unfold DataStorage.loadRecord at hd
        cases h1 : EncryptionManager.decrypt c d.app_password with
        | none => rw [h1] at hd; exact absurd hd (by simp)
        | some pw =>
          rw [h1] at hd
          cases h2 : EncryptionManager.decrypt c d.ai_api_key with
          | none => rw [h2] at hd; exact absurd hd (by simp)
          | some key =>
            rw [h2] at hd
            simp only [Option.some.injEq] at hd
            rw [← hd]
            rfl
      · exact ih p h

/-- Claim C10: record construction — `from_dict` as run by `load`
included — unconditionally stamps `updated_at` with the
construction-time clock value, discarding any `updated_at` in the input
(so whenever the load-time clock differs from the stored value, the
loaded `updated_at` is not the stored one), while a `created_at` present
in the input is preserved; consequently every record a load returns
carries the load-time clock as `updated_at`. -/
theorem C10_updated_at_overwritten (d : Project) (now : String)
    (c : Cipher) (fs : FS) :
    (WordPressProject.from_dict now d).updated_at = some now
    ∧ (∀ c0, d.created_at = some c0 →
        (WordPressProject.from_dict now d).created_at = some c0)
    ∧ (∀ u, d.updated_at = some u → u ≠ now →
        (WordPressProject.from_dict now d).updated_at ≠ some u)
    ∧ (∀ p ∈ DataStorage.load_projects c now fs, p.updated_at = some now) := by
  refine ⟨rfl, ?_, ?_, ?_⟩
  · intro c0 h
    unfold WordPressProject.from_dict WordPressProject.postInit
    rw [h]
    rfl
  · intro u _ hne hc
    simp only [WordPressProject.from_dict, WordPressProject.postInit,
      Option.some.injEq] at hc
    exact hne hc.symm
  · intro p hp
    unfold DataStorage.load_projects at hp
    revert hp
    cases fs.target with
    | none =>
      intro hp
      simp at hp
    | some fd =>
      cases fd with
      | truncated =>
        intro hp
        simp at hp
      | complete doc =>
        intro hp
        exact mem_loadLoop_updated_at c now doc.projects p hp

/-- Claim C10, exercised: loading from a freshly saved document at clock
`"t9"` stamps `"t9"` as `updated_at`, keeps `created_at`, and drops the
stored `updated_at` value. -/
theorem C10_updated_at_overwritten_witness :
    (WordPressProject.from_dict "t9" recA).updated_at = some "t9"
    ∧ (WordPressProject.from_dict "t9" recA).created_at
        = some "2024-01-01T00:00:00"
    ∧ (WordPressProject.from_dict "t9" recA).updated_at
        ≠ some "2024-01-01T00:00:00" := by
  have h := C10_updated_at_overwritten recA "t9" trivialCipher ⟨none, none⟩
  exact ⟨h.1, h.2.1 _ rfl, h.2.2.1 _ rfl (by decide)⟩
